import Mathlib

/-!
Verification of the Planidocs import-migration scripts
(`src/scripts/fix_imports.py`, `src/scripts/update_imports.py`,
`src/scripts/fix_planning_imports.py`).

The scripts are thin wrappers around Python's `re` module: each rule is a
(pattern, replacement, description) triple, patterns are applied with
`re.findall` / `re.sub` to whole-file contents, and the orchestrator walks a
directory, reads each file, transforms it and (outside dry-run) writes it back.

The embedding below models the fragment of Python regular expressions that the
three scripts actually use: literal characters, escaped literals, character
classes such as `['"]`, `\s`, `.`, the greedy star on `\s` and `.`, and
capture groups with `\1`-style references in replacement templates.  Matching
is greedy with backtracking and scans left to right replacing non-overlapping
matches, as `re.sub`/`re.findall` do.  Recursive functions carry an explicit
fuel argument so that every definition is a computable structural recursion;
the fuel supplied by the wrappers is always sufficient (every recursive call
consumes at least one unit along any call path whose length is bounded by the
supplied amount).

File contents, paths and rule fields are `String`s; file reads are modelled by
an `Option String` (a `none` content is an unreadable file, mirroring an
`IOError` raised by `open`), and the per-file write side effect is returned as
an `Option String` (the content written, if a write happens).
-/

/-- Character atoms of the pattern language: a character class (explicit list
of characters, as produced by `[...]`) or the dot, which matches any character
except a newline, following Python `re` semantics without `DOTALL`. -/
inductive CAtom where
  | cls (cs : List Char)
  | dot
  deriving DecidableEq, Repr

/-- Compiled pattern tokens: literal character, single atom, greedy star of an
atom, and numbered capture-group delimiters. -/
inductive Tok where
  | lit (c : Char)
  | one (a : CAtom)
  | star (a : CAtom)
  | gopen (n : Nat)
  | gclose (n : Nat)
  deriving DecidableEq, Repr

/-- The characters matched by Python's `\s`. -/
def wsChars : List Char := [' ', '\t', '\n', '\r', '\x0b', '\x0c']

/-- Whether an atom matches a character. -/
def atomMatches (a : CAtom) (c : Char) : Bool :=
  match a with
  | .cls cs => cs.contains c
  | .dot => c != '\n'

/-- Parse the body of a character class up to the closing `]`, handling
backslash escapes (as in `['\"]`).  Returns the listed characters and the rest
of the pattern. -/
def parseClass : List Char → Option (List Char × List Char)
  | [] => none
  | ']' :: rest => some ([], rest)
  | '\\' :: c :: rest => (parseClass rest).map (fun p => (c :: p.1, p.2))
  | c :: rest => (parseClass rest).map (fun p => (c :: p.1, p.2))

/-- Characters that may appear backslash-escaped as literals in the scripts'
patterns. -/
def escLits : List Char :=
  ['.', '/', '\\', '*', '+', '?', '(', ')', '[', ']', '|', '^', '$',
   '\x7b', '\x7d', '\x27', '"']

/-- Parse a pattern string into tokens.  `next` numbers capture groups from 1
as Python does, `stk` is the stack of currently open groups; an unbalanced
group, a dangling escape, or an unsupported construct yields `none`
(the model of a pattern on which `re` raises).  The fuel argument dominates
the number of recursive calls; each call consumes at least one character. -/
def parseRx : Nat → Nat → List Nat → List Char → Option (List Tok)
  | 0, _, _, _ => none
  | _ + 1, _, stk, [] => if stk.isEmpty then some [] else none
  | fuel + 1, next, stk, '(' :: rest =>
      (parseRx fuel (next + 1) (next :: stk) rest).map (Tok.gopen next :: ·)
  | fuel + 1, next, stk, ')' :: rest =>
      match stk with
      | [] => none
      | n :: stk' => (parseRx fuel next stk' rest).map (Tok.gclose n :: ·)
  | fuel + 1, next, stk, '[' :: rest =>
      match parseClass rest with
      | none => none
      | some (cs, '*' :: rest') =>
          (parseRx fuel next stk rest').map (Tok.star (CAtom.cls cs) :: ·)
      | some (cs, rest') =>
          (parseRx fuel next stk rest').map (Tok.one (CAtom.cls cs) :: ·)
  | fuel + 1, next, stk, '\\' :: 's' :: '*' :: rest =>
      (parseRx fuel next stk rest).map (Tok.star (CAtom.cls wsChars) :: ·)
  | fuel + 1, next, stk, '\\' :: 's' :: rest =>
      (parseRx fuel next stk rest).map (Tok.one (CAtom.cls wsChars) :: ·)
  | fuel + 1, next, stk, '\\' :: c :: rest =>
      if escLits.contains c then (parseRx fuel next stk rest).map (Tok.lit c :: ·)
      else none
  | _ + 1, _, _, ['\\'] => none
  | fuel + 1, next, stk, '.' :: '*' :: rest =>
      (parseRx fuel next stk rest).map (Tok.star CAtom.dot :: ·)
  | fuel + 1, next, stk, '.' :: rest =>
      (parseRx fuel next stk rest).map (Tok.one CAtom.dot :: ·)
  | _ + 1, _, _, '*' :: _ => none
  | _ + 1, _, _, '+' :: _ => none
  | _ + 1, _, _, '?' :: _ => none
  | fuel + 1, next, stk, c :: rest =>
      (parseRx fuel next stk rest).map (Tok.lit c :: ·)

/-- Compile a pattern string, `re.compile`-style: `none` models a pattern on
which `re` raises `re.error` (or a construct outside the modelled fragment). -/
def compileRx (p : String) : Option (List Tok) :=
  parseRx (p.data.length + 1) 1 [] p.data

/-- Capture-group events produced by the matcher: group `n` opened or closed
at offset `pos` from the start of the match. -/
inductive Ev where
  | op (n : Nat) (pos : Nat)
  | cl (n : Nat) (pos : Nat)
  deriving DecidableEq, Repr

/-- Shift an event's offset by `k`. -/
def shiftEv (k : Nat) : Ev → Ev
  | .op n p => .op n (p + k)
  | .cl n p => .cl n (p + k)

/-- Match the token list against a prefix of `s`, returning the length of the
match and the capture events, or `none`.  The star is greedy with
backtracking: the branch consuming one more character is preferred, and the
continuation is retried at the current position only if that branch fails
entirely, which reproduces the leftmost-longest preference of Python's
backtracking engine on this fragment.  Fuel bounds the call depth; each call
shrinks the token list or the subject. -/
def matchToks : Nat → List Tok → List Char → Option (Nat × List Ev)
  | 0, _, _ => none
  | _ + 1, [], _ => some (0, [])
  | fuel + 1, .lit c :: ts, x :: xs =>
      if x = c then
        (matchToks fuel ts xs).map (fun r => (r.1 + 1, r.2.map (shiftEv 1)))
      else none
  | _ + 1, .lit _ :: _, [] => none
  | fuel + 1, .one a :: ts, x :: xs =>
      if atomMatches a x then
        (matchToks fuel ts xs).map (fun r => (r.1 + 1, r.2.map (shiftEv 1)))
      else none
  | _ + 1, .one _ :: _, [] => none
  | fuel + 1, .star _ :: ts, [] => matchToks fuel ts []
  | fuel + 1, .star a :: ts, x :: xs =>
      if atomMatches a x then
        match matchToks fuel (.star a :: ts) xs with
        | some r => some (r.1 + 1, r.2.map (shiftEv 1))
        | none => matchToks fuel ts (x :: xs)
      else matchToks fuel ts (x :: xs)
  | fuel + 1, .gopen n :: ts, s =>
      (matchToks fuel ts s).map (fun r => (r.1, Ev.op n 0 :: r.2))
  | fuel + 1, .gclose n :: ts, s =>
      (matchToks fuel ts s).map (fun r => (r.1, Ev.cl n 0 :: r.2))

/-- Attempt a match at the current position with sufficient fuel. -/
def matchHere (toks : List Tok) (s : List Char) : Option (Nat × List Ev) :=
  matchToks (toks.length + s.length + 1) toks s

/-- Span (start, stop offsets) of capture group `n` in an event list. -/
def capSpan (evs : List Ev) (n : Nat) : Option (Nat × Nat) :=
  match evs.findSome? (fun e => match e with
          | .op m p => if m = n then some p else none
          | .cl _ _ => none),
        evs.findSome? (fun e => match e with
          | .cl m p => if m = n then some p else none
          | .op _ _ => none) with
  | some a, some b => some (a, b)
  | _, _ => none

/-- Items of a replacement template: a literal character or a `\N` group
reference, mirroring how `re.sub` interprets its replacement string. -/
inductive RItem where
  | ch (c : Char)
  | ref (n : Nat)
  deriving DecidableEq, Repr

/-- Parse a replacement string into template items.  A backslash followed by a
digit is a group reference; the scripts' replacements use no other escapes. -/
def parseTmpl : List Char → List RItem
  | [] => []
  | '\\' :: c :: rest =>
      if c.isDigit then RItem.ref (c.toNat - '0'.toNat) :: parseTmpl rest
      else RItem.ch c :: parseTmpl rest
  | c :: rest => RItem.ch c :: parseTmpl rest

/-- Expand a template for a match starting at `s`, using the capture events. -/
def expandTmpl (tmpl : List RItem) (s : List Char) (evs : List Ev) : List Char :=
  (tmpl.map (fun it =>
    match it with
    | .ch c => [c]
    | .ref n =>
        match capSpan evs n with
        | some sp => ((s.drop sp.1).take (sp.2 - sp.1))
        | none => [])).flatten

/-- Count the non-overlapping matches of a compiled pattern in `s`, scanning
left to right, exactly the matches that `re.findall` returns (only their
number is used by the scripts).  A zero-width match is counted and scanning
advances one character, as in Python ≥ 3.7. -/
def countMatches : Nat → List Tok → List Char → Nat
  | 0, _, _ => 0
  | fuel + 1, toks, s =>
      match matchHere toks s with
      | some (len, _) =>
          if len = 0 then
            match s with
            | [] => 1
            | _ :: rest => countMatches fuel toks rest + 1
          else
            match s with
            | [] => 1
            | _ :: _ => countMatches fuel toks (s.drop len) + 1
      | none =>
          match s with
          | [] => 0
          | _ :: rest => countMatches fuel toks rest

/-- Replace every non-overlapping match by the expanded template, scanning
left to right: the model of `re.sub`. -/
def subMatches : Nat → List Tok → List RItem → List Char → List Char
  | 0, _, _, s => s
  | fuel + 1, toks, tmpl, s =>
      match matchHere toks s with
      | some (len, evs) =>
          if len = 0 then
            match s with
            | [] => expandTmpl tmpl s evs
            | c :: rest => expandTmpl tmpl s evs ++ c :: subMatches fuel toks tmpl rest
          else
            match s with
            | [] => expandTmpl tmpl s evs
            | _ :: _ => expandTmpl tmpl s evs ++ subMatches fuel toks tmpl (s.drop len)
      | none =>
          match s with
          | [] => []
          | c :: rest => c :: subMatches fuel toks tmpl rest

/-- Model of `len(re.findall(pat, s))`: `none` when the pattern fails to
compile. -/
def reFindallCount (pat : String) (s : String) : Option Nat :=
  (compileRx pat).map (fun toks => countMatches (s.length + 1) toks s.data)

/-- Model of `re.sub(pat, repl, s)`: `none` when the pattern fails to
compile. -/
def reSub (pat repl : String) (s : String) : Option String :=
  (compileRx pat).map
    (fun toks => ⟨subMatches (s.length + 1) toks (parseTmpl repl.data) s.data⟩)

/-- A rewrite rule as stored in the scripts' rule tables: regex pattern
source, replacement template source, and a human-readable description. -/
structure Rule where
  pattern : String
  replacement : String
  description : String
  deriving DecidableEq, Repr

/-- The data carried by one appended change line
`f"- {description}: {len(matches)} occurrence(s)"` of `process_file`:
the rule's description and the number of matches found. -/
structure ChangeEntry where
  description : String
  count : Nat
  deriving DecidableEq, Repr

/-- The rule table `IMPORT_RULES` of `fix_imports.py`, transliterated rule by
rule (patterns and replacements are the exact source strings; literal braces
are written `\x7b`/`\x7d` and apostrophes `\x27`). -/
def IMPORT_RULES : List Rule := [
  ⟨"from [\\\x27\"]\\.\\.\\/lib\\/firebase\\/config[\\\x27\"]",
   "from \"../../../lib/firebase/config\"", "Firebase config (features)"⟩,
  ⟨"import \\\x7b db \\\x7d from [\\\x27\"]\\.\\.\\/lib\\/firebase\\/config[\\\x27\"]",
   "import \x7b db \x7d from \"../../../lib/firebase/config\"", "Firebase db import (features)"⟩,
  ⟨"from [\\\x27\"]\\.\\.\\/\\.\\.\\/lib\\/firebase\\/config[\\\x27\"]",
   "from \"../../lib/firebase/config\"", "Firebase config (context)"⟩,
  ⟨"import \\\x7b db \\\x7d from [\\\x27\"]\\.\\.\\/\\.\\.\\/lib\\/firebase\\/config[\\\x27\"]",
   "import \x7b db \x7d from \"../../lib/firebase/config\"", "Firebase db import (context)"⟩,
  ⟨"import \\\x7b db \\\x7d from [\\\x27\"]\\.\\.\\/\\.\\.\\/\\.\\.\\/lib\\/firebase\\/config[\\\x27\"]",
   "from \"../../lib/firebase/config\"", "Firebase db import (context)"⟩,
  ⟨"from [\\\x27\"]\\.\\.\\/hooks\\/useAuth[\\\x27\"]",
   "from \"../../../features/auth/hooks\"", "useAuth hook"⟩,
  ⟨"from [\\\x27\"]\\.\\.\\/\\.\\.\\/hooks\\/useAuth[\\\x27\"]",
   "from \"../../../features/auth/hooks\"", "useAuth hook"⟩,
  ⟨"from [\\\x27\"]\\.\\.\\/useAuth[\\\x27\"]",
   "from \"../../../features/auth/hooks\"", "useAuth hook"⟩,
  ⟨"from [\\\x27\"]\\.\\/useAuth[\\\x27\"]",
   "from \"../../../features/auth/hooks\"", "useAuth hook"⟩,
  ⟨"import \\\x7b useAuth \\\x7d from [\\\x27\"]\\.\\.\\/useAuth[\\\x27\"]",
   "import \x7b useAuth \x7d from \"../../../features/auth/hooks\"", "useAuth import"⟩,
  ⟨"import \\\x7b useAuth \\\x7d from [\\\x27\"]\\.\\/useAuth[\\\x27\"]",
   "import \x7b useAuth \x7d from \"../../../features/auth/hooks\"", "useAuth import"⟩,
  ⟨"from [\\\x27\"]\\.\\.\\/hooks\\/useDesiderata[\\\x27\"]",
   "from \"../../../features/planning/hooks/useDesiderata\"", "useDesiderata hook"⟩,
  ⟨"from [\\\x27\"]\\.\\.\\/\\.\\.\\/hooks\\/useDesiderata[\\\x27\"]",
   "from \"../../../features/planning/hooks/useDesiderata\"", "useDesiderata hook"⟩,
  ⟨"from [\\\x27\"]\\.\\.\\/useDesiderata[\\\x27\"]",
   "from \"../../../features/planning/hooks/useDesiderata\"", "useDesiderata hook"⟩,
  ⟨"from [\\\x27\"]\\.\\/useDesiderata[\\\x27\"]",
   "from \"../../../features/planning/hooks/useDesiderata\"", "useDesiderata hook"⟩,
  ⟨"from [\\\x27\"]\\.\\.\\/hooks\\/useDesiderataState[\\\x27\"]",
   "from \"../../../features/planning/hooks/useDesiderataState\"", "useDesiderataState hook"⟩,
  ⟨"from [\\\x27\"]\\.\\.\\/\\.\\.\\/hooks\\/useDesiderataState[\\\x27\"]",
   "from \"../../../features/planning/hooks/useDesiderataState\"", "useDesiderataState hook"⟩,
  ⟨"from [\\\x27\"]\\.\\.\\/useDesiderataState[\\\x27\"]",
   "from \"../../../features/planning/hooks/useDesiderataState\"", "useDesiderataState hook"⟩,
  ⟨"from [\\\x27\"]\\.\\/useDesiderataState[\\\x27\"]",
   "from \"../../../features/planning/hooks/useDesiderataState\"", "useDesiderataState hook"⟩,
  ⟨"from [\\\x27\"]\\.\\.\\/hooks\\/usePlanningPeriod[\\\x27\"]",
   "from \"../../../features/planning/hooks/usePlanningPeriod\"", "usePlanningPeriod hook"⟩,
  ⟨"from [\\\x27\"]\\.\\.\\/hooks\\/useShiftAssignments[\\\x27\"]",
   "from \"../../../features/planning/hooks/useShiftAssignments\"", "useShiftAssignments hook"⟩,
  ⟨"from [\\\x27\"]\\.\\.\\/hooks\\/useUserAssignments[\\\x27\"]",
   "from \"../../../features/users/hooks/useUserAssignments\"", "useUserAssignments hook"⟩,
  ⟨"from [\\\x27\"]\\.\\.\\/hooks\\/useCachedUserData[\\\x27\"]",
   "from \"../../../features/users/hooks/useCachedUserData\"", "useCachedUserData hook"⟩]

/-- The transformation loop of `process_file` (fix_imports.py lines 94-102):
for each rule in order, `matches = re.findall(pattern, content)`; if matches
exist, `new_content = re.sub(pattern, replacement, content)`; if the result
differs from the current content, one change line with the match count is
appended and the current content becomes the result.  A pattern on which `re`
raises propagates as an error (the script has no handler). -/
def applyRules : List Rule → String → Except String (String × List ChangeEntry)
  | [], content => .ok (content, [])
  | r :: rs, content =>
    match reFindallCount r.pattern content with
    | none => .error r.pattern
    | some n =>
      if n ≠ 0 then
        match reSub r.pattern r.replacement content with
        | none => .error r.pattern
        | some c' =>
          if c' ≠ content then
            match applyRules rs c' with
            | .ok (cf, chs) => .ok (cf, ⟨r.description, n⟩ :: chs)
            | .error e => .error e
          else applyRules rs content
      else applyRules rs content

/-- Rule Applier as the claim words it: whenever at least one match exists,
every match is substituted, exactly one ChangeEntry carrying the description
and the match count is appended, and the loop continues with the rewritten
content; rules with no match leave content and change list untouched. -/
def applyRulesClaimStep (st : Except String (String × List ChangeEntry)) (r : Rule) :
    Except String (String × List ChangeEntry) :=
  match st with
  | .error e => .error e
  | .ok (content, chs) =>
    match reFindallCount r.pattern content, reSub r.pattern r.replacement content with
    | some n, some c' =>
        if n ≠ 0 then .ok (c', chs ++ [⟨r.description, n⟩]) else .ok (content, chs)
    | _, _ => .error r.pattern

/-- The Rule Applier exactly as claim C1 states it (no comparison of the
substitution result with the current content). -/
def applyRulesClaim (rules : List Rule) (content : String) :
    Except String (String × List ChangeEntry) :=
  rules.foldl applyRulesClaimStep (.ok (content, []))

/-- Rule Applier as amended: a ChangeEntry is appended (and the content
advances) only when at least one match exists AND substituting every match
yields content different from the current content; a rule with no match, or
whose substitution reproduces the current content verbatim, leaves both the
content and the change list untouched. -/
def applyRulesAmendedStep (st : Except String (String × List ChangeEntry)) (r : Rule) :
    Except String (String × List ChangeEntry) :=
  match st with
  | .error e => .error e
  | .ok (content, chs) =>
    match reFindallCount r.pattern content, reSub r.pattern r.replacement content with
    | some n, some c' =>
        if n ≠ 0 ∧ c' ≠ content then .ok (c', chs ++ [⟨r.description, n⟩])
        else .ok (content, chs)
    | _, _ => .error r.pattern

/-- The amended Rule Applier over a whole registry. -/
def applyRulesAmended (rules : List Rule) (content : String) :
    Except String (String × List ChangeEntry) :=
  rules.foldl applyRulesAmendedStep (.ok (content, []))

/-- Errors that abort a run of `fix_imports.py`: an `IOError` from opening a
file, or an `re.error` raised while applying a pattern.  The script installs
no handler for either. -/
inductive RunError where
  | readError (path : String)
  | regexError (pattern : String)
  deriving DecidableEq, Repr

/-- Model of `process_file(file_path, dry_run)`: the file's content stands in
for the filesystem read (`none` models a read that raises), and the returned
`Option String` is the write side effect (the content written back, when the
content changed and the run is not a dry run).  The returned `Bool` is the
"modified" verdict. -/
def process_file (rules : List Rule) (path : String) (content? : Option String)
    (dry_run : Bool) : Except RunError (Bool × List ChangeEntry × Option String) :=
  match content? with
  | none => .error (.readError path)
  | some content =>
    match applyRules rules content with
    | .error p => .error (.regexError p)
    | .ok (c', chs) =>
        if c' != content && !dry_run then .ok (true, chs, some c')
        else .ok (c' != content, chs, none)

/-- The totals printed by `main`'s final summary, plus the per-file listing of
change lines that `main` prints for each modified file. -/
structure Summary where
  filesScanned : Nat
  filesModified : Nat
  totalChanges : Nat
  perFile : List (String × List ChangeEntry)
  deriving DecidableEq, Repr

/-- Observable outcome of a run: which file paths were opened for reading (in
order), which writes were performed (path and content, in order), and either
the final summary or the uncaught exception that aborted the run. -/
structure RunOutcome where
  reads : List String
  writes : List (String × String)
  result : Except RunError Summary
  deriving Repr

/-- The per-file loop of `main` (fix_imports.py lines 135-143): processes the
remaining files, threading `modified_files` (`mf`), `total_changes` (`tc`),
the per-file listing and the read/write logs; `n0` is `len(files)` printed as
"Fichiers analysés".  An exception from `process_file` propagates: the loop
has no handler, so the run aborts with the logs accumulated so far and no
summary. -/
def mainGo (rules : List Rule) (dry_run : Bool) (n0 : Nat) :
    List (String × Option String) → Nat → Nat → List (String × List ChangeEntry) →
    List String → List (String × String) → RunOutcome
  | [], mf, tc, pf, reads, writes =>
      ⟨reads.reverse, writes.reverse, .ok ⟨n0, mf, tc, pf.reverse⟩⟩
  | (path, c?) :: rest, mf, tc, pf, reads, writes =>
      match process_file rules path c? dry_run with
      | .error e => ⟨(path :: reads).reverse, writes.reverse, .error e⟩
      | .ok (modified, chs, w?) =>
          let writes' := match w? with
            | some c => (path, c) :: writes
            | none => writes
          if modified then
            mainGo rules dry_run n0 rest (mf + 1) (tc + chs.length)
              ((path, chs) :: pf) (path :: reads) writes'
          else
            mainGo rules dry_run n0 rest mf tc pf (path :: reads) writes'

/-- Model of `main` in `fix_imports.py`, starting from the discovered file
list (each path paired with its readable content, or `none` for a file whose
read raises). -/
def mainRun (rules : List Rule) (dry_run : Bool)
    (files : List (String × Option String)) : RunOutcome :=
  mainGo rules dry_run files.length files 0 0 [] [] []

/-- Sum of the occurrence counts of all ChangeEntries in a per-file listing. -/
def sumOccurrences (perFile : List (String × List ChangeEntry)) : Nat :=
  (perFile.map (fun pc => (pc.2.map (fun ch => ch.count)).sum)).sum

/-- Number of ChangeEntries in a per-file listing. -/
def numEntries (perFile : List (String × List ChangeEntry)) : Nat :=
  (perFile.map (fun pc => pc.2.length)).sum

/-- The replacement table of `fix_planning_imports.py`, transliterated pair by
pair from the source. -/
def PLANNING_REPLACEMENTS : List (String × String) := [
  ("from [\x27\"](\\.\\.\\/context\\/shiftExchange)[\x27\"]",
   "from \"../../../context/shiftExchange\""),
  ("from [\x27\"](\\.\\.\\/context\\/planning\\/PlanningContext)[\x27\"]",
   "from \"../../../context/planning/PlanningContext\""),
  ("from [\x27\"](\\.\\.\\/components\\/common\\/Switch)[\x27\"]",
   "from \"../components/common/Switch\""),
  ("from [\x27\"](\\.\\.\\/components\\/common\\/LoadingSpinner)[\x27\"]",
   "from \"../components/common/LoadingSpinner\""),
  ("from [\x27\"](\\.\\.\\/components\\/planning\\/PlanningTutorial)[\x27\"]",
   "from \"../components/PlanningTutorial\""),
  ("from [\x27\"](\\.\\.\\/components\\/Toast)[\x27\"]",
   "from \"../../../components/Toast\""),
  ("import (.*) from [\x27\"](\\.\\.\\/components\\/planning\\/GeneratedPlanningTable)[\x27\"]",
   "import \\1 from \"../components/GeneratedPlanningTable\""),
  ("from [\x27\"](\\.\\.\\/types\\/planning)[\x27\"]",
   "from \"../types\""),
  ("from [\x27\"](\\.\\.\\/utils\\/timeUtils)[\x27\"]",
   "from \"../utils/timeUtils\""),
  ("from [\x27\"](\\.\\.\\/utils\\/lazyExporters)[\x27\"]",
   "from \"../utils/lazyExporters\""),
  ("from [\x27\"](\\.\\.\\/lib\\/firebase\\/desiderata)[\x27\"]",
   "from \"../../../lib/firebase/desiderata\"")]

/-- The replacement loop of `fix_planning_imports.py`'s `fix_imports`:
`content = re.sub(pattern, replacement, content)` for each pair in order,
with no match test and no change tracking. -/
def planningApply (content : String) : Option String :=
  PLANNING_REPLACEMENTS.foldl
    (fun acc pr => acc.bind (fun c => reSub pr.1 pr.2 c)) (some content)

/-- Model of `fix_planning_imports.py`'s `fix_imports(file_path)`: after the
replacement loop the content is written back unconditionally — the pair's
second component is the write side effect, always `some` of the final
content, whether or not it differs from the input. -/
def fix_imports_planning (content : String) : Option (String × Option String) :=
  (planningApply content).map (fun c => (c, some c))

/-- The useAuth import pattern of `update_imports.py` (source line 19). -/
def useAuthPattern : String :=
  "import\\s*\x7b\\s*useAuth\\s*\x7d\\s*from\\s*[\x27\\\"](.*/hooks/useAuth)[\x27\\\"]"

/-- Python's `file_path.count('/')`. -/
def countSlash (p : String) : Nat := p.data.count '/'

/-- Model of `update_imports_in_file(file_path)` from `update_imports.py`:
`depth = file_path.count('/') - 1`, `rel_path = '../' * depth`, then every
match of the useAuth import pattern is replaced by
`import { useAuth } from '<rel_path>features/auth/hooks'`; the file is
written back (second component `some`) only when the substitution changed the
content, and the returned Bool mirrors the function's return value.
Python's `'../' * depth` yields the empty string for non-positive `depth`,
which truncated Nat subtraction reproduces. -/
def update_imports_in_file (path content : String) :
    Option (String × Bool × Option String) :=
  let depth := countSlash path - 1
  let rel_path := String.join (List.replicate depth "../")
  let repl := "import \x7b useAuth \x7d from \x27" ++ rel_path ++ "features/auth/hooks\x27"
  (reSub useAuthPattern repl content).map
    (fun nc => if nc != content then (nc, true, some nc) else (nc, false, none))

/-- A filesystem entry for the File Discoverer model: the path as a list of
name components and whether the entry is a directory.  A filesystem snapshot
is a list of such entries; its list order stands for the (deterministic, for
an unchanged tree) enumeration order of `Path.rglob`. -/
structure FsEntry where
  path : List String
  isDir : Bool
  deriving DecidableEq, Repr

/-- The `FILE_EXTENSIONS` table of `fix_imports.py`. -/
def FILE_EXTENSIONS : List String := [".ts", ".tsx", ".js", ".jsx"]

/-- Name of an entry: its last path component. -/
def entryName (e : FsEntry) : String := (e.path.getLast?).getD ""

/-- Whether a name matches the glob `*<ext>`: the name ends with the
extension string (pathlib's fnmatch-based matching, which does not treat
leading dots specially). -/
def globMatchesExt (ext name : String) : Bool :=
  ext.data.reverse.isPrefixOf name.data.reverse

/-- Whether `Path(root).rglob('*' + ext)` yields the entry: the entry lies
strictly below the root and its name matches the glob.  `rglob` matches
directories as well as regular files. -/
def rglobMatches (root : List String) (ext : String) (e : FsEntry) : Bool :=
  root.isPrefixOf e.path && e.path != root && globMatchesExt ext (entryName e)

/-- Model of `find_typescript_files(root_dir)` (fix_imports.py lines 68-74):
for each extension in `FILE_EXTENSIONS` order, append every entry under the
root whose name matches `*<ext>`, in the snapshot's enumeration order. -/
def find_typescript_files (root : List String) (fs : List FsEntry) : List FsEntry :=
  (FILE_EXTENSIONS.map (fun ext => fs.filter (rglobMatches root ext))).flatten

/-- Folding the amended step over an error state leaves the error. -/
lemma foldl_amendedStep_error (rules : List Rule) (e : String) :
    rules.foldl applyRulesAmendedStep (.error e) = .error e := by
  induction rules with
  | nil => rfl
  | cons r rs ih =>
      show rs.foldl applyRulesAmendedStep (applyRulesAmendedStep (.error e) r) = _
      exact ih

/-- Folding the amended step from an ok state computes `applyRules`, with the
accumulated change list prepended. -/
lemma foldl_amendedStep_ok (rules : List Rule) :
    ∀ (content : String) (acc : List ChangeEntry),
      rules.foldl applyRulesAmendedStep (.ok (content, acc)) =
        match applyRules rules content with
        | .ok pr => .ok (pr.1, acc ++ pr.2)
        | .error e => .error e := by
  induction rules with
  | nil => intro content acc; simp [applyRules]
  | cons r rs ih =>
      intro content acc
      simp only [List.foldl]
      cases hc : compileRx r.pattern with
      | none =>
          have h1 : reFindallCount r.pattern content = none := by
            simp [reFindallCount, hc]
          have h2 : reSub r.pattern r.replacement content = none := by
            simp [reSub, hc]
          rw [show applyRulesAmendedStep (.ok (content, acc)) r = .error r.pattern from by
            simp [applyRulesAmendedStep, h1, h2]]
          rw [foldl_amendedStep_error]
          simp [applyRules, h1]
      | some toks =>
          have h1 : reFindallCount r.pattern content =
              some (countMatches (content.length + 1) toks content.data) := by
            simp [reFindallCount, hc]
          have h2 : reSub r.pattern r.replacement content =
              some ⟨subMatches (content.length + 1) toks
                      (parseTmpl r.replacement.data) content.data⟩ := by
            simp [reSub, hc]
          set n := countMatches (content.length + 1) toks content.data with hn
          set c' : String :=
            ⟨subMatches (content.length + 1) toks
              (parseTmpl r.replacement.data) content.data⟩ with hc'
          by_cases h0 : n = 0
          · rw [show applyRulesAmendedStep (.ok (content, acc)) r = .ok (content, acc) from by
              simp [applyRulesAmendedStep, h1, h2, h0]]
            rw [ih content acc]
            simp [applyRules, h1, h0]
          · by_cases hcc : c' = content
            · rw [show applyRulesAmendedStep (.ok (content, acc)) r = .ok (content, acc) from by
                simp [applyRulesAmendedStep, h1, h2, hcc]]
              rw [ih content acc]
              simp [applyRules, h1, h2, h0, hcc]
            · rw [show applyRulesAmendedStep (.ok (content, acc)) r =
                    .ok (c', acc ++ [⟨r.description, n⟩]) from by
                simp [applyRulesAmendedStep, h1, h2, h0, hcc]]
              rw [ih]
              simp only [applyRules, h1, h2, h0, hcc]
              simp only [if_neg h0, if_neg hcc, ite_not]
              cases applyRules rs c' with
              | ok pr => simp
              | error e => simp

/-- C1 (amended): the Rule Applier of `process_file` behaves as the amended
description states: for each rule in registry order it finds all matches in
the evolving content, and exactly when at least one match exists and
substituting every match produces content different from the current content,
it appends one ChangeEntry carrying the rule's description and the match
count and continues with the rewritten content; a rule with no match, or
whose substitution leaves the content unchanged, leaves both the content and
the change list untouched. -/
theorem C1_rule_applier_amended (rules : List Rule) (content : String) :
    applyRulesAmended rules content = applyRules rules content := by
  have h := foldl_amendedStep_ok rules content []
  unfold applyRulesAmended
  rw [h]
  cases applyRules rules content with
  | ok pr => simp
  | error e => rfl

/-- C1 (counterexample): on the content `from "../../lib/firebase/config"`,
rule 3 of `IMPORT_RULES` ("Firebase config (context)") finds exactly one
match, yet `process_file`'s loop appends no ChangeEntry at all, because the
substitution reproduces the content verbatim and the loop's
`new_content != content` test rejects it; the Rule Applier as the claim
states it would instead record one ChangeEntry with count 1.  So "whenever at
least one match exists it ... appends exactly one ChangeEntry" is false of
the code. -/
theorem C1_counterexample :
    reFindallCount (IMPORT_RULES.get ⟨2, by decide⟩).pattern
      "from \"../../lib/firebase/config\"" = some 1 ∧
    applyRules IMPORT_RULES "from \"../../lib/firebase/config\"" =
      .ok ("from \"../../lib/firebase/config\"", []) ∧
    applyRulesClaim IMPORT_RULES "from \"../../lib/firebase/config\"" =
      .ok ("from \"../../lib/firebase/config\"",
           [⟨"Firebase config (context)", 1⟩]) := by
  refine ⟨by rfl, by rfl, by rfl⟩

/-- C6 (confirmed): for any rule set and any file content, a dry-run call of
`process_file` and an apply-mode call return the same modified verdict and
the same ChangeEntry list; only the write side effect (the third component)
differs. -/
theorem C6_dry_run_equivalence (rules : List Rule) (path : String)
    (content? : Option String) :
    (process_file rules path content? true).map (fun r => (r.1, r.2.1)) =
    (process_file rules path content? false).map (fun r => (r.1, r.2.1)) := by
  cases content? with
  | none => rfl
  | some content =>
      simp only [process_file]
      cases applyRules rules content with
      | error e => rfl
      | ok pr =>
          obtain ⟨c', chs⟩ := pr
          cases h : c' != content <;> simp [h, Except.map]

/-- C7 (amended): if no rule's pattern matches a content at all, the Rule
Applier returns the content unchanged with no ChangeEntries; consequently a
first application whose output contains no match of any rule's pattern is a
fixed point of the engine. -/
theorem C7_amended_fixed_point (rules : List Rule) (content : String)
    (h : ∀ r ∈ rules, reFindallCount r.pattern content = some 0) :
    applyRules rules content = .ok (content, []) := by
  induction rules with
  | nil => rfl
  | cons r rs ih =>
      have hr := h r (by simp)
      have hrs : ∀ q ∈ rs, reFindallCount q.pattern content = some 0 :=
        fun q hq => h q (by simp [hq])
      simp [applyRules, hr, ih hrs]

/-- Witness for `C7_amended_fixed_point` at the shipped registry and the
content "x", on which no rule matches. -/
theorem C7_witness : applyRules IMPORT_RULES "x" = .ok ("x", []) :=
  C7_amended_fixed_point IMPORT_RULES "x" (by decide)

/-- C7 (counterexample): the claim's side condition is not sufficient.  The
one-rule registry (pattern `ab`, replacement the empty string) satisfies it —
the replacement contains no substring matched by the pattern — yet on input
`aabb` the first application yields `ab` (deleting the middle match joins the
leading `a` with the trailing `b`), and the second application again finds
one match, appends a ChangeEntry, and returns a different output. -/
theorem C7_counterexample :
    reFindallCount "ab" "" = some 0 ∧
    applyRules [⟨"ab", "", "strip"⟩] "aabb" = .ok ("ab", [⟨"strip", 1⟩]) ∧
    applyRules [⟨"ab", "", "strip"⟩] "ab" = .ok ("", [⟨"strip", 1⟩]) := by
  refine ⟨by rfl, by rfl, by rfl⟩

/-- C8 (confirmed): rule order is observable.  With rule A rewriting `x` to
`y` and rule B rewriting `y` to `z` (so A's replacement contains text matched
by B's pattern, as the claim requires), the registry [A, B] sends the content
`x` to `z` while [B, A] sends it to `y`. -/
theorem C8_order_sensitivity :
    applyRules [⟨"x", "y", "A"⟩, ⟨"y", "z", "B"⟩] "x" =
      .ok ("z", [⟨"A", 1⟩, ⟨"B", 1⟩]) ∧
    applyRules [⟨"y", "z", "B"⟩, ⟨"x", "y", "A"⟩] "x" =
      .ok ("y", [⟨"A", 1⟩]) ∧
    reFindallCount "y" "y" = some 1 ∧
    ("z" : String) ≠ "y" := by
  refine ⟨by rfl, by rfl, by rfl, by decide⟩

/-- Reversing a per-file listing does not change its entry count. -/
lemma numEntries_reverse (pf : List (String × List ChangeEntry)) :
    numEntries pf.reverse = numEntries pf := by
  simp [numEntries, List.map_reverse, List.sum_reverse]

/-- Invariant of `main`'s per-file loop: when the loop completes with a
summary, the scanned count is the initial file count, the modified count is
bounded by it, and the total-changes counter equals the number of
ChangeEntries in the per-file listing (because the loop adds `len(changes)`
for each modified file it records). -/
lemma mainGo_ok_invariant (rules : List Rule) (dry : Bool) (n0 : Nat) :
    ∀ (rem : List (String × Option String)) (mf tc : Nat)
      (pf : List (String × List ChangeEntry)) (reads : List String)
      (writes : List (String × String)) (s : Summary),
      (mainGo rules dry n0 rem mf tc pf reads writes).result = .ok s →
      tc = numEntries pf → mf + rem.length ≤ n0 →
      s.filesScanned = n0 ∧ s.filesModified ≤ n0 ∧
        s.totalChanges = numEntries s.perFile := by
  intro rem
  induction rem with
  | nil =>
      intro mf tc pf reads writes s hok htc hle
      simp only [mainGo] at hok
      cases hok
      exact ⟨rfl, by simpa using hle, by simpa [numEntries_reverse] using htc⟩
  | cons f rest ih =>
      intro mf tc pf reads writes s hok htc hle
      obtain ⟨path, c?⟩ := f
      simp only [mainGo] at hok
      cases hpf : process_file rules path c? dry with
      | error e => rw [hpf] at hok; simp at hok
      | ok v =>
          obtain ⟨modified, chs, w?⟩ := v
          rw [hpf] at hok
          cases modified <;> cases w? <;> simp only [] at hok <;>
            simp only [if_true, if_false, Bool.false_eq_true, ite_false, ite_true] at hok
          · exact ih mf tc pf _ _ s hok htc
              (by simp only [List.length_cons] at hle; omega)
          · exact ih mf tc pf _ _ s hok htc
              (by simp only [List.length_cons] at hle; omega)
          · refine ih (mf + 1) (tc + chs.length) ((path, chs) :: pf) _ _ s hok ?_
              (by simp only [List.length_cons] at hle; omega)
            simp [numEntries, htc]
            omega
          · refine ih (mf + 1) (tc + chs.length) ((path, chs) :: pf) _ _ s hok ?_
              (by simp only [List.length_cons] at hle; omega)
            simp [numEntries, htc]
            omega

/-- C2 (amended): for every run that completes with a summary, the totals
satisfy `filesModified ≤ filesScanned`, and `totalChanges` equals the number
of ChangeEntries in the per-file listing (the code adds `len(changes)` per
modified file), not the sum of their occurrence counts. -/
theorem C2_amended_report_invariant (rules : List Rule) (dry : Bool)
    (files : List (String × Option String)) (s : Summary)
    (h : (mainRun rules dry files).result = .ok s) :
    s.filesModified ≤ s.filesScanned ∧ s.totalChanges = numEntries s.perFile := by
  have hinv := mainGo_ok_invariant rules dry files.length files 0 0 [] [] [] s h rfl
      (by simp)
  refine ⟨?_, hinv.2.2⟩
  rw [hinv.1]
  exact hinv.2.1

/-- Witness for `C2_amended_report_invariant` on a one-file run in which no
rule matches. -/
theorem C2_witness :
    (⟨1, 0, 0, []⟩ : Summary).filesModified ≤ (⟨1, 0, 0, []⟩ : Summary).filesScanned ∧
    (⟨1, 0, 0, []⟩ : Summary).totalChanges = numEntries (⟨1, 0, 0, []⟩ : Summary).perFile :=
  C2_amended_report_invariant IMPORT_RULES false [("a.ts", some "x")] ⟨1, 0, 0, []⟩
    (by rfl)

/-- C2 (counterexample): a run over one file holding two occurrences of the
useAuth pattern produces one ChangeEntry with occurrenceCount 2, and the
printed `totalChanges` is 1 (the number of ChangeEntries), not 2 (the sum of
occurrence counts), so `totalChanges = Σ occurrenceCount` is false of the
code. -/
theorem C2_counterexample :
    (mainRun IMPORT_RULES true
        [("a.ts", some "from \x27../hooks/useAuth\x27;from \x27../hooks/useAuth\x27")]).result =
      .ok ⟨1, 1, 1, [("a.ts", [⟨"useAuth hook", 2⟩])]⟩ ∧
    sumOccurrences [("a.ts", [⟨"useAuth hook", 2⟩])] = 2 ∧
    (1 : Nat) ≠ 2 :=
  ⟨by rfl, by rfl, by decide⟩

/-- When the registry contains a rule whose pattern does not compile, the
rule loop raises no matter where that rule sits: the well-formed rules before
it apply normally (transforming the content or not), the loop reaches the
first malformed pattern, and the whole application errors on it. -/
lemma applyRules_error_of_bad :
    ∀ (rules : List Rule), (∃ r ∈ rules, compileRx r.pattern = none) →
      ∀ content, ∃ p, compileRx p = none ∧ applyRules rules content = .error p := by
  intro rules
  induction rules with
  | nil =>
      intro h content
      obtain ⟨r, hr, _⟩ := h
      simp at hr
  | cons r rs ih =>
      intro h content
      cases hc : compileRx r.pattern with
      | none =>
          refine ⟨r.pattern, hc, ?_⟩
          have h1 : reFindallCount r.pattern content = none := by
            simp [reFindallCount, hc]
          simp [applyRules, h1]
      | some toks =>
          have hbad : ∃ q ∈ rs, compileRx q.pattern = none := by
            obtain ⟨q, hq, hqc⟩ := h
            rcases List.mem_cons.mp hq with rfl | hq'
            · simp [hqc] at hc
            · exact ⟨q, hq', hqc⟩
          have h1 : reFindallCount r.pattern content =
              some (countMatches (content.length + 1) toks content.data) := by
            simp [reFindallCount, hc]
          have h2 : reSub r.pattern r.replacement content =
              some ⟨subMatches (content.length + 1) toks
                      (parseTmpl r.replacement.data) content.data⟩ := by
            simp [reSub, hc]
          set c' : String :=
            ⟨subMatches (content.length + 1) toks
              (parseTmpl r.replacement.data) content.data⟩
          by_cases h0 : countMatches (content.length + 1) toks content.data = 0
          · obtain ⟨p, hp, herr⟩ := ih hbad content
            exact ⟨p, hp, by simp [applyRules, h1, h0, herr]⟩
          · by_cases hcc : c' = content
            · obtain ⟨p, hp, herr⟩ := ih hbad content
              exact ⟨p, hp, by simp [applyRules, h1, h2, h0, hcc, herr]⟩
            · obtain ⟨p, hp, herr⟩ := ih hbad c'
              exact ⟨p, hp, by simp [applyRules, h1, h2, h0, hcc, herr]⟩

/-- C3 (amended): there is no registry validation step.  For every registry
containing a malformed pattern — anywhere in the rule list, with any
well-formed rules before it — the failure is only discovered when
`re.findall` first runs on that pattern, i.e. while processing the first
file: the run reads that file, then aborts with the uncaught regex error on a
non-compiling pattern; no write has been performed at that point, since the
per-file write comes after the whole rule loop. -/
theorem C3_amended_midrun_failure (rules : List Rule)
    (hbad : ∃ r ∈ rules, compileRx r.pattern = none)
    (path content : String) (files : List (String × Option String)) (dry : Bool) :
    ∃ p, compileRx p = none ∧
      mainRun rules dry ((path, some content) :: files) =
        ⟨[path], [], .error (.regexError p)⟩ := by
  obtain ⟨p, hp, herr⟩ := applyRules_error_of_bad rules hbad content
  refine ⟨p, hp, ?_⟩
  have hproc : process_file rules path (some content) dry =
      .error (.regexError p) := by
    simp [process_file, herr]
  simp [mainRun, mainGo, hproc]

/-- Witness for `C3_amended_midrun_failure`: all 23 shipped rules followed by
the malformed pattern `(` — the run still reads its first file before
aborting on a pattern that fails to compile. -/
theorem C3_witness :
    ∃ p, compileRx p = none ∧
      mainRun (IMPORT_RULES ++ [⟨"(", "x", "bad"⟩]) true [("f.ts", some "hello")] =
        ⟨["f.ts"], [], .error (.regexError p)⟩ :=
  C3_amended_midrun_failure (IMPORT_RULES ++ [⟨"(", "x", "bad"⟩])
    ⟨⟨"(", "x", "bad"⟩, by decide, by rfl⟩ "f.ts" "hello" [] true

/-- C3 (counterexample): with a registry containing the malformed pattern
`(`, the run does NOT fail at registry load time before any file is read —
the first file is read (`reads = ["g.ts"]`), and the failure is an uncaught
regex error raised mid-run while processing that file, not a load-time
InvalidRuleError. -/
theorem C3_counterexample :
    (mainRun [⟨"(", "x", "bad"⟩] false [("g.ts", some "content")]).reads =
      ["g.ts"] ∧
    (mainRun [⟨"(", "x", "bad"⟩] false [("g.ts", some "content")]).result =
      .error (.regexError "(") :=
  ⟨by rfl, by rfl⟩

/-- When every pattern of the registry compiles, the rule loop never raises:
it returns some transformed content and change list. -/
lemma applyRules_isOk :
    ∀ (rules : List Rule), (∀ r ∈ rules, (compileRx r.pattern).isSome) →
      ∀ content, ∃ pr, applyRules rules content = .ok pr := by
  intro rules
  induction rules with
  | nil => intro _ content; exact ⟨(content, []), rfl⟩
  | cons r rs ih =>
      intro hc content
      have hr := hc r (by simp)
      obtain ⟨toks, htoks⟩ := Option.isSome_iff_exists.mp hr
      have hrs : ∀ q ∈ rs, (compileRx q.pattern).isSome :=
        fun q hq => hc q (by simp [hq])
      have h1 : reFindallCount r.pattern content =
          some (countMatches (content.length + 1) toks content.data) := by
        simp [reFindallCount, htoks]
      have h2 : reSub r.pattern r.replacement content =
          some ⟨subMatches (content.length + 1) toks
                  (parseTmpl r.replacement.data) content.data⟩ := by
        simp [reSub, htoks]
      set c' : String :=
        ⟨subMatches (content.length + 1) toks
          (parseTmpl r.replacement.data) content.data⟩
      by_cases h0 : countMatches (content.length + 1) toks content.data = 0
      · obtain ⟨pr, hpr⟩ := ih hrs content
        exact ⟨pr, by simp [applyRules, h1, h0, hpr]⟩
      · by_cases hcc : c' = content
        · obtain ⟨pr, hpr⟩ := ih hrs content
          exact ⟨pr, by simp [applyRules, h1, h2, h0, hcc, hpr]⟩
        · obtain ⟨pr, hpr⟩ := ih hrs c'
          refine ⟨(pr.1,
            ⟨r.description, countMatches (content.length + 1) toks content.data⟩ :: pr.2), ?_⟩
          simp [applyRules, h1, h2, h0, hcc, hpr]

/-- The per-file loop, run on readable files followed by an unreadable one,
reads exactly the readable prefix and the failing file, then aborts with the
uncaught read error: there is no per-file handler, so the remaining files are
never reached. -/
lemma mainGo_aborts_at_unreadable (rules : List Rule) (dry : Bool) (n0 : Nat)
    (hc : ∀ r ∈ rules, (compileRx r.pattern).isSome)
    (p : String) (rest : List (String × Option String)) :
    ∀ (pre : List (String × Option String)), (∀ x ∈ pre, (x.2).isSome) →
      ∀ (mf tc : Nat) (pf : List (String × List ChangeEntry))
        (reads : List String) (writes : List (String × String)),
        ∃ w, mainGo rules dry n0 (pre ++ (p, none) :: rest) mf tc pf reads writes =
          ⟨reads.reverse ++ (pre.map Prod.fst ++ [p]), w,
           .error (.readError p)⟩ := by
  intro pre
  induction pre with
  | nil =>
      intro _ mf tc pf reads writes
      refine ⟨writes.reverse, ?_⟩
      simp [mainGo, process_file]
  | cons q qs ih =>
      intro hpre mf tc pf reads writes
      obtain ⟨qp, qc?⟩ := q
      have hq : qc?.isSome = true := hpre (qp, qc?) (by simp)
      obtain ⟨qc, hqc⟩ := Option.isSome_iff_exists.mp hq
      subst hqc
      have hqs : ∀ x ∈ qs, (x.2).isSome := fun x hx => hpre x (by simp [hx])
      obtain ⟨pr, hpr⟩ := applyRules_isOk rules hc qc
      obtain ⟨c', chs⟩ := pr
      cases hd : (c' != qc && !dry) with
      | true =>
          have hproc : process_file rules qp (some qc) dry = .ok (true, chs, some c') := by
            simp only [process_file, hpr]
            rw [if_pos hd]
          obtain ⟨w, hrec⟩ := ih hqs (mf + 1) (tc + chs.length) ((qp, chs) :: pf)
            (qp :: reads) ((qp, c') :: writes)
          refine ⟨w, ?_⟩
          rw [show ((qp, some qc) :: qs) ++ (p, none) :: rest =
                (qp, some qc) :: (qs ++ (p, none) :: rest) from rfl]
          simp only [mainGo, hproc, if_true]
          rw [hrec]
          simp
      | false =>
          have hproc : process_file rules qp (some qc) dry = .ok (c' != qc, chs, none) := by
            simp only [process_file, hpr]
            rw [if_neg (by simp [hd])]
          rw [show ((qp, some qc) :: qs) ++ (p, none) :: rest =
                (qp, some qc) :: (qs ++ (p, none) :: rest) from rfl]
          cases hm : c' != qc with
          | true =>
              rw [hm] at hproc
              obtain ⟨w, hrec⟩ := ih hqs (mf + 1) (tc + chs.length) ((qp, chs) :: pf)
                (qp :: reads) writes
              refine ⟨w, ?_⟩
              simp only [mainGo, hproc, if_true]
              rw [hrec]
              simp
          | false =>
              rw [hm] at hproc
              obtain ⟨w, hrec⟩ := ih hqs mf tc pf (qp :: reads) writes
              refine ⟨w, ?_⟩
              simp only [mainGo, hproc, Bool.false_eq_true, if_false]
              rw [hrec]
              simp

/-- C4 (amended): a read failure on an individual file is NOT caught: the
exception propagates out of `process_file` and out of `main`'s loop, so the
run reads the readable prefix and the failing file, aborts with the read
error, and never processes the remaining files; no summary (and hence no
`filesScanned` count) is produced. -/
theorem C4_amended_read_failure_aborts (rules : List Rule) (dry : Bool)
    (pre : List (String × Option String)) (p : String)
    (rest : List (String × Option String))
    (hc : ∀ r ∈ rules, (compileRx r.pattern).isSome)
    (hpre : ∀ x ∈ pre, (x.2).isSome) :
    (mainRun rules dry (pre ++ (p, none) :: rest)).result =
      .error (.readError p) ∧
    (mainRun rules dry (pre ++ (p, none) :: rest)).reads =
      pre.map Prod.fst ++ [p] := by
  obtain ⟨w, hw⟩ :=
    mainGo_aborts_at_unreadable rules dry (pre ++ (p, none) :: rest).length hc p rest
      pre hpre 0 0 [] [] []
  rw [mainRun, hw]
  simp

/-- Witness for `C4_amended_read_failure_aborts`: with the shipped registry,
a run over [a.ts (readable), b.ts (unreadable), c.ts (readable)] reads a.ts
and b.ts, aborts with the read error on b.ts, and never reaches c.ts. -/
theorem C4_witness :
    (mainRun IMPORT_RULES false
        [("a.ts", some "x"), ("b.ts", none), ("c.ts", some "x")]).result =
      .error (.readError "b.ts") ∧
    (mainRun IMPORT_RULES false
        [("a.ts", some "x"), ("b.ts", none), ("c.ts", some "x")]).reads =
      ["a.ts", "b.ts"] :=
  C4_amended_read_failure_aborts IMPORT_RULES false [("a.ts", some "x")] "b.ts"
    [("c.ts", some "x")] (by decide) (by decide)

/-- C4 (counterexample): an unreadable file aborts the whole run.  In a
dry-run over [a.ts, b.ts (unreadable), c.ts], only a.ts and b.ts are read,
the outcome is the uncaught read error, c.ts is never processed, and no final
report exists — contradicting "all remaining files are still processed" and
"the unreadable file is still counted in filesScanned". -/
theorem C4_counterexample :
    mainRun IMPORT_RULES true
        [("a.ts", some "ok"), ("b.ts", none), ("c.ts", some "ok")] =
      ⟨["a.ts", "b.ts"], [], .error (.readError "b.ts")⟩ := by
  rfl

/-- C5 (amended): in `fix_imports.py`, `process_file` performs its write
exactly when the run is in apply mode and the transformed content differs
from the original (the modified verdict); but `fix_planning_imports.py`'s
`fix_imports` writes the file back unconditionally — it has no dry-run mode
and no change test, so even an untouched file is rewritten. -/
theorem C5_amended_write_conditions :
    (∀ (rules : List Rule) (path content : String) (dry m : Bool)
        (chs : List ChangeEntry) (w : Option String),
        process_file rules path (some content) dry = .ok (m, chs, w) →
        w.isSome = (!dry && m)) ∧
    (∀ content c', planningApply content = some c' →
        fix_imports_planning content = some (c', some c')) := by
  constructor
  · intro rules path content dry m chs w h
    cases happ : applyRules rules content with
    | error e => simp [process_file, happ] at h
    | ok pr =>
        obtain ⟨c', chs'⟩ := pr
        simp only [process_file, happ] at h
        by_cases hcond : (c' != content && !dry) = true
        · rw [if_pos hcond] at h
          simp only [Except.ok.injEq, Prod.mk.injEq] at h
          obtain ⟨hm, _, hw⟩ := h
          subst hm
          rw [← hw]
          simp only [Option.isSome_some]
          simp only [Bool.and_eq_true] at hcond
          simp [hcond.2]
        · rw [if_neg hcond] at h
          simp only [Except.ok.injEq, Prod.mk.injEq] at h
          obtain ⟨hm, _, hw⟩ := h
          subst hm
          rw [← hw]
          cases hd : dry <;> cases hmm : (c' != content) <;> simp_all
  · intro content c' h
    simp [fix_imports_planning, h]

/-- Witness for `C5_amended_write_conditions`: a dry-run on an unmatched
content performs no write, and the planning script writes back the content
"x" even though no replacement touched it. -/
theorem C5_witness :
    (none : Option String).isSome = (!true && false) ∧
    fix_imports_planning "x" = some ("x", some "x") :=
  ⟨C5_amended_write_conditions.1 IMPORT_RULES "a.ts" "x" true false [] none (by rfl),
   C5_amended_write_conditions.2 "x" "x" (by rfl)⟩

/-- C5 (counterexample): `fix_planning_imports.py` processes the content
"hello", which no replacement changes, and still writes it back: a write
happens although the transformed content equals the original, refuting
"a write happens ... only if ... the transformed content differs from the
original content" for this script. -/
theorem C5_counterexample :
    fix_imports_planning "hello" = some ("hello", some "hello") := by
  rfl

/-- C10 (confirmed): in `update_imports.py`, the replacement text depends
only on the number of '/' separators in the file path (two paths with equal
slash counts produce identical results on every content), and a matching
matching line is rewritten to `import { useAuth } from
'<prefix>features/auth/hooks'` where `<prefix>` is `../` repeated
(slash count - 1) times — so the same content at paths of different depth
produces different outputs, as the two concrete runs show. -/
theorem C10_depth_only_replacement :
    (∀ (p1 p2 content : String), countSlash p1 = countSlash p2 →
        update_imports_in_file p1 content = update_imports_in_file p2 content) ∧
    update_imports_in_file "src/A.tsx"
        "import \x7b useAuth \x7d from \x27../hooks/useAuth\x27" =
      some ("import \x7b useAuth \x7d from \x27features/auth/hooks\x27", true,
        some "import \x7b useAuth \x7d from \x27features/auth/hooks\x27") ∧
    update_imports_in_file "src/comp/A.tsx"
        "import \x7b useAuth \x7d from \x27../hooks/useAuth\x27" =
      some ("import \x7b useAuth \x7d from \x27../features/auth/hooks\x27", true,
        some "import \x7b useAuth \x7d from \x27../features/auth/hooks\x27") ∧
    ("import \x7b useAuth \x7d from \x27features/auth/hooks\x27" : String) ≠
      "import \x7b useAuth \x7d from \x27../features/auth/hooks\x27" := by
  refine ⟨?_, by rfl, by rfl, by decide⟩
  intro p1 p2 content h
  simp only [update_imports_in_file]
  rw [h]

/-- Witness for `C10_depth_only_replacement`: two distinct paths with equal
slash counts yield identical results. -/
theorem C10_witness :
    update_imports_in_file "src/a/B.tsx" "x" =
      update_imports_in_file "src/c/D.tsx" "x" :=
  C10_depth_only_replacement.1 "src/a/B.tsx" "src/c/D.tsx" "x" (by decide)

/-- Two prefixes of the same list are comparable. -/
lemma isPrefixOf_comparable : ∀ (l p q : List Char),
    p.isPrefixOf l = true → q.isPrefixOf l = true →
    p.isPrefixOf q = true ∨ q.isPrefixOf p = true := by
  intro l
  induction l with
  | nil =>
      intro p q hp hq
      cases p with
      | nil => left; cases q <;> rfl
      | cons a as => simp [List.isPrefixOf] at hp
  | cons c cs ih =>
      intro p q hp hq
      cases p with
      | nil => left; cases q <;> rfl
      | cons a as =>
          cases q with
          | nil => right; rfl
          | cons b bs =>
              simp only [List.isPrefixOf, Bool.and_eq_true, beq_iff_eq] at hp hq
              rcases ih as bs hp.2 hq.2 with h | h
              · left
                simp [List.isPrefixOf, hp.1, hq.1, h]
              · right
                simp [List.isPrefixOf, hp.1, hq.1, h]

/-- Distinct extensions of `FILE_EXTENSIONS` never both match one name:
none of `.ts`, `.tsx`, `.js`, `.jsx` is a suffix of another. -/
lemma globMatchesExt_exclusive (e1 e2 name : String)
    (h1 : e1 ∈ FILE_EXTENSIONS) (h2 : e2 ∈ FILE_EXTENSIONS) (hne : e1 ≠ e2)
    (g1 : globMatchesExt e1 name = true) (g2 : globMatchesExt e2 name = true) :
    False := by
  simp only [globMatchesExt] at g1 g2
  have hcomp := isPrefixOf_comparable name.data.reverse e1.data.reverse
    e2.data.reverse g1 g2
  simp only [FILE_EXTENSIONS, List.mem_cons, List.not_mem_nil, or_false] at h1 h2
  rcases h1 with rfl | rfl | rfl | rfl <;> rcases h2 with rfl | rfl | rfl | rfl <;>
    first
      | exact hne rfl
      | (rcases hcomp with h | h <;> revert h <;> decide)

/-- Filters of the same snapshot by two distinct extensions share no entry. -/
lemma rglob_filters_disjoint (root : List String) (fs : List FsEntry)
    (e1 e2 : String) (h1 : e1 ∈ FILE_EXTENSIONS) (h2 : e2 ∈ FILE_EXTENSIONS)
    (hne : e1 ≠ e2) :
    (fs.filter (rglobMatches root e1)).Disjoint
      (fs.filter (rglobMatches root e2)) := by
  intro e he1 he2
  rw [List.mem_filter] at he1 he2
  have g1 : globMatchesExt e1 (entryName e) = true := by
    have h := he1.2
    simp only [rglobMatches, Bool.and_eq_true] at h
    exact h.2
  have g2 : globMatchesExt e2 (entryName e) = true := by
    have h := he2.2
    simp only [rglobMatches, Bool.and_eq_true] at h
    exact h.2
  exact globMatchesExt_exclusive e1 e2 (entryName e) h1 h2 hne g1 g2

/-- C9 (amended): for a snapshot without duplicate entries, the File
Discoverer returns, without duplicates, exactly the entries strictly under
the root whose NAME matches one of the extension globs — which includes
directories so named, not only regular files; the sequence is grouped by
extension in `FILE_EXTENSIONS` order and is a function of the snapshot, so
two runs over an unchanged tree return identical lists. -/
theorem C9_amended_discoverer (root : List String) (fs : List FsEntry)
    (hnd : fs.Nodup) :
    (find_typescript_files root fs).Nodup ∧
    (∀ e, e ∈ find_typescript_files root fs ↔
      e ∈ fs ∧ ∃ ext ∈ FILE_EXTENSIONS, rglobMatches root ext e = true) := by
  have hunfold : find_typescript_files root fs =
      fs.filter (rglobMatches root ".ts") ++ (fs.filter (rglobMatches root ".tsx") ++
        (fs.filter (rglobMatches root ".js") ++
          (fs.filter (rglobMatches root ".jsx") ++ []))) := rfl
  have d12 := rglob_filters_disjoint root fs ".ts" ".tsx" (by decide) (by decide)
    (by decide)
  have d13 := rglob_filters_disjoint root fs ".ts" ".js" (by decide) (by decide)
    (by decide)
  have d14 := rglob_filters_disjoint root fs ".ts" ".jsx" (by decide) (by decide)
    (by decide)
  have d23 := rglob_filters_disjoint root fs ".tsx" ".js" (by decide) (by decide)
    (by decide)
  have d24 := rglob_filters_disjoint root fs ".tsx" ".jsx" (by decide) (by decide)
    (by decide)
  have d34 := rglob_filters_disjoint root fs ".js" ".jsx" (by decide) (by decide)
    (by decide)
  constructor
  · rw [hunfold]
    refine List.nodup_append.mpr ⟨hnd.filter _, ?_, ?_⟩
    · refine List.nodup_append.mpr ⟨hnd.filter _, ?_, ?_⟩
      · refine List.nodup_append.mpr ⟨hnd.filter _, ?_, ?_⟩
        · exact List.nodup_append.mpr
            ⟨hnd.filter _, List.nodup_nil, List.disjoint_nil_right _⟩
        · rw [List.disjoint_append_right]
          exact ⟨d34, List.disjoint_nil_right _⟩
      · rw [List.disjoint_append_right, List.disjoint_append_right]
        exact ⟨d23, d24, List.disjoint_nil_right _⟩
    · rw [List.disjoint_append_right, List.disjoint_append_right,
        List.disjoint_append_right]
      exact ⟨d12, d13, d14, List.disjoint_nil_right _⟩
  · intro e
    rw [hunfold]
    simp only [List.mem_append, List.mem_filter, List.not_mem_nil, or_false]
    constructor
    · rintro (h | h | h | h)
      · exact ⟨h.1, ".ts", by decide, h.2⟩
      · exact ⟨h.1, ".tsx", by decide, h.2⟩
      · exact ⟨h.1, ".js", by decide, h.2⟩
      · exact ⟨h.1, ".jsx", by decide, h.2⟩
    · rintro ⟨he, ext, hext, hp⟩
      simp only [FILE_EXTENSIONS, List.mem_cons, List.not_mem_nil, or_false] at hext
      rcases hext with rfl | rfl | rfl | rfl
      · exact Or.inl ⟨he, hp⟩
      · exact Or.inr (Or.inl ⟨he, hp⟩)
      · exact Or.inr (Or.inr (Or.inl ⟨he, hp⟩))
      · exact Or.inr (Or.inr (Or.inr ⟨he, hp⟩))

/-- Witness for `C9_amended_discoverer` on a one-entry snapshot. -/
theorem C9_witness :
    (find_typescript_files ["src"] [⟨["src", "a.ts"], false⟩]).Nodup ∧
    (∀ e, e ∈ find_typescript_files ["src"] [⟨["src", "a.ts"], false⟩] ↔
      e ∈ [FsEntry.mk ["src", "a.ts"] false] ∧
        ∃ ext ∈ FILE_EXTENSIONS, rglobMatches ["src"] ext e = true) :=
  C9_amended_discoverer ["src"] [⟨["src", "a.ts"], false⟩]
    (List.nodup_singleton _)

/-- C9 (counterexample): `rglob` matches directories too.  In a tree holding
a DIRECTORY named `foo.ts` (containing a file `a.tsx`), the discoverer's
output contains the directory entry itself, so the returned sequence is not
restricted to file paths, contradicting "nothing that is not a file is
included". -/
theorem C9_counterexample :
    FsEntry.mk ["src", "foo.ts"] true ∈
      find_typescript_files ["src"]
        [⟨["src", "foo.ts"], true⟩, ⟨["src", "foo.ts", "a.tsx"], false⟩] ∧
    (FsEntry.mk ["src", "foo.ts"] true).isDir = true := by
  exact ⟨by decide, rfl⟩
